import Mathlib

/-
Verification of the sandboxed path-resolution and staging/approval engine of
server/app.py (project-scoped file gateway).

Modelling conventions:
- Python strings are Lean String values; all character-level work goes through
  String.data so definitions evaluate in the kernel.
- os.path.realpath is modelled as lexical normalization of an absolute path
  (the filesystem is assumed symlink-free, the only setting the claims speak
  about).
- The filesystem is an association list from canonical absolute path to file
  bytes (List Nat); directories are implicit.
- HTTPException(code, msg) is modelled as Except.error (code, msg).
-/

/-! ## String helpers (character-level, so that everything reduces) -/

/-- Python str.lstrip with a single separator: drop leading slash characters. -/
def lstripSlash (s : String) : String := ⟨s.data.dropWhile (fun c => c = '/')⟩

/-- Python str.replace of backslash by slash (single-character replace is a map). -/
def backToFwd (s : String) : String :=
  ⟨s.data.map (fun c => if c = '\\' then '/' else c)⟩

/-- Python str.startswith. -/
def strStartsWith (s pre : String) : Bool := pre.data.isPrefixOf s.data

/-- Python str.endswith. -/
def strEndsWith (s suf : String) : Bool := suf.data.isSuffixOf s.data

/-- Split a character list at every slash, Python str.split semantics
(empty input gives one empty field, separators at the ends give empty fields). -/
def splitSlashChars : List Char → List (List Char)
  | [] => [[]]
  | c :: rest =>
    if c = '/' then [] :: splitSlashChars rest
    else
      match splitSlashChars rest with
      | [] => [[c]]
      | seg :: segs => (c :: seg) :: segs

/-- One pass of lexical path normalization over the segments of an absolute
path: empty segments and "." are dropped, ".." pops the last kept segment
(at the root it stays at the root). -/
def normSegsAux : List (List Char) → List (List Char) → List (List Char)
  | stack, [] => stack.reverse
  | stack, seg :: rest =>
    if seg = [] ∨ seg = ['.'] then normSegsAux stack rest
    else if seg = ['.', '.'] then normSegsAux stack.tail rest
    else normSegsAux (seg :: stack) rest

/-- Render canonical segments back to an absolute path string. -/
def canonOfSegs (segs : List (List Char)) : String :=
  match segs with
  | [] => "/"
  | _ => ⟨segs.flatMap (fun s => '/' :: s)⟩

/-- os.path.realpath on an absolute path, modelled lexically (no symlinks). -/
def realpathStr (p : String) : String :=
  canonOfSegs (normSegsAux [] (splitSlashChars p.data))

/-- os.path.join for the shapes used in app.py: an absolute second argument
replaces the first, otherwise a single separator joins them. -/
def joinPath (root rel : String) : String :=
  if strStartsWith rel "/" then rel
  else if root = "" ∨ strEndsWith root "/" then root ++ rel
  else root ++ "/" ++ rel

/-- The containment test on canonical paths used by app.py (both in
_safe_join and _is_subpath): exact match, or prefix plus a separator
boundary. -/
def withinRoot (child rroot : String) : Bool :=
  decide (child = rroot) || strStartsWith child (rroot ++ "/")

/-! ## _is_subpath and _safe_join (server/app.py lines 70-84) -/

/-- server/app.py _is_subpath: canonicalize the child and every parent and
test containment against any of them. -/
def is_subpath (child : String) (parents : List String) : Bool :=
  parents.any (fun p => withinRoot (realpathStr child) (realpathStr p))

/-- server/app.py _safe_join: strip a leading separator, turn backslashes
into slashes, join with the root, canonicalize, and require the result to
stay inside the canonical root.  none models HTTPException(400, "invalid
path"). -/
def safe_join (root rel0 : String) : Option String :=
  let rel := backToFwd (lstripSlash rel0)
  let abspath := realpathStr (joinPath root rel)
  let rroot := realpathStr root
  if withinRoot abspath rroot then some abspath else none

/-! ## Errors, filesystem, manifest -/

/-- HTTPException: status code and detail message. -/
abbrev HErr := Nat × String

instance {ε α : Type} [DecidableEq ε] [DecidableEq α] : DecidableEq (Except ε α) :=
  fun a b =>
    match a, b with
    | .error e, .error f =>
      if h : e = f then isTrue (by rw [h]) else isFalse (fun hh => h (Except.error.inj hh))
    | .ok x, .ok y =>
      if h : x = y then isTrue (by rw [h]) else isFalse (fun hh => h (Except.ok.inj hh))
    | .error _, .ok _ => isFalse (fun hh => Except.noConfusion hh)
    | .ok _, .error _ => isFalse (fun hh => Except.noConfusion hh)

/-- The filesystem: canonical absolute path to file bytes, first entry wins. -/
abbrev FS := List (String × List Nat)

/-- Content of the file at a path, none when no file is there (os.path.isfile
false). -/
def fsRead : FS → String → Option (List Nat)
  | [], _ => none
  | (q, c) :: rest, p => if p = q then some c else fsRead rest p

/-- shutil.copy2 target state: the destination now holds the given bytes and
shadows any earlier entry. -/
def fsWrite (fs : FS) (p : String) (c : List Nat) : FS := (p, c) :: fs

/-- The per-request view that load_manifest (server/app.py lines 89-115)
computes from manifest.json: project root, read-only roots, the effective
write dir (output_pending when approval is on), the declared final write dir,
and the alias table. -/
structure Manifest where
  projectRoot : String
  readDirsRel : List String
  writeDirRel : String
  finalWriteRel : String
  aliases : List (String × String)

/-- The per-operation allowed roots of list_fs / search_files / get_file:
the read dirs plus the effective write dir when it is not already among
them (server/app.py lines 275-277). -/
def opRootsRel (m : Manifest) : List String :=
  if m.writeDirRel ∈ m.readDirsRel then m.readDirsRel
  else m.readDirsRel ++ [m.writeDirRel]

/-- Absolute form of the allowed roots. -/
def opRootsAbs (m : Manifest) : List String :=
  (opRootsRel m).map (fun r => joinPath m.projectRoot r)

/-- The shared resolution step of get_file and list_fs: _safe_join against
the project root (400 on escape), then _is_subpath against the allowed
roots (403 otherwise). -/
def resolveForOp (projectRoot : String) (allowedRootsAbs : List String)
    (rel : String) : Except HErr String :=
  match safe_join projectRoot rel with
  | none => .error (400, "invalid path")
  | some p =>
    if is_subpath p allowedRootsAbs then .ok p
    else .error (403, "path not allowed")

/-! ## Reading a file: get_file (server/app.py lines 267-313) -/

/-- Python os.path.basename for the slash-free-tail shapes used here. -/
def basename (s : String) : String :=
  ⟨(s.data.reverse.takeWhile (fun c => c ≠ '/')).reverse⟩

/-- The test b"\x00" in data. -/
def hasNullByte : List Nat → Bool
  | [] => false
  | b :: rest => decide (b = 0) || hasNullByte rest

/-- Is b a UTF-8 continuation byte. -/
def isContByte (b : Nat) : Bool := decide (0x80 ≤ b) && decide (b ≤ 0xBF)

/-- Allowed second byte of a three-byte sequence headed by b1 (surrogates and
overlong forms excluded, as in CPython). -/
def validSecondOf3 (b1 b2 : Nat) : Bool :=
  if b1 = 0xE0 then decide (0xA0 ≤ b2) && decide (b2 ≤ 0xBF)
  else if b1 = 0xED then decide (0x80 ≤ b2) && decide (b2 ≤ 0x9F)
  else isContByte b2

/-- Allowed second byte of a four-byte sequence headed by b1. -/
def validSecondOf4 (b1 b2 : Nat) : Bool :=
  if b1 = 0xF0 then decide (0x90 ≤ b2) && decide (b2 ≤ 0xBF)
  else if b1 = 0xF4 then decide (0x80 ≤ b2) && decide (b2 ≤ 0x8F)
  else isContByte b2

/-- Fuel-driven UTF-8 decoder with replacement (models bytes.decode("utf-8",
errors="replace"); invalid input yields U+FFFD and resynchronizes).  The fuel
only needs to exceed the list length. -/
def utf8DecodeGo : Nat → List Nat → List Nat
  | 0, _ => []
  | _, [] => []
  | fuel + 1, b :: rest =>
    if b < 0x80 then b :: utf8DecodeGo fuel rest
    else if decide (0xC2 ≤ b) && decide (b ≤ 0xDF) then
      match rest with
      | [] => [0xFFFD]
      | b2 :: rest2 =>
        if isContByte b2 then
          ((b - 0xC0) * 0x40 + (b2 - 0x80)) :: utf8DecodeGo fuel rest2
        else 0xFFFD :: utf8DecodeGo fuel rest
    else if decide (0xE0 ≤ b) && decide (b ≤ 0xEF) then
      match rest with
      | [] => [0xFFFD]
      | b2 :: rest2 =>
        if validSecondOf3 b b2 then
          match rest2 with
          | [] => [0xFFFD]
          | b3 :: rest3 =>
            if isContByte b3 then
              ((b - 0xE0) * 0x1000 + (b2 - 0x80) * 0x40 + (b3 - 0x80)) ::
                utf8DecodeGo fuel rest3
            else 0xFFFD :: utf8DecodeGo fuel rest2
        else 0xFFFD :: utf8DecodeGo fuel rest
    else if decide (0xF0 ≤ b) && decide (b ≤ 0xF4) then
      match rest with
      | [] => [0xFFFD]
      | b2 :: rest2 =>
        if validSecondOf4 b b2 then
          match rest2 with
          | [] => [0xFFFD]
          | b3 :: rest3 =>
            if isContByte b3 then
              match rest3 with
              | [] => [0xFFFD]
              | b4 :: rest4 =>
                if isContByte b4 then
                  ((b - 0xF0) * 0x40000 + (b2 - 0x80) * 0x1000 +
                      (b3 - 0x80) * 0x40 + (b4 - 0x80)) :: utf8DecodeGo fuel rest4
                else 0xFFFD :: utf8DecodeGo fuel rest3
            else 0xFFFD :: utf8DecodeGo fuel rest2
        else 0xFFFD :: utf8DecodeGo fuel rest
    else 0xFFFD :: utf8DecodeGo fuel rest

/-- bytes.decode("utf-8", errors="replace") as a Lean String.  CPython's
strict decode agrees with this whenever it succeeds, so the try/except of
get_file produces exactly this text in both arms. -/
def utf8DecodeReplace (bytes : List Nat) : String :=
  ⟨(utf8DecodeGo (bytes.length + 1) bytes).map Char.ofNat⟩

/-- MAX_PREVIEW_BYTES (server/app.py line 68). -/
def MAX_PREVIEW_BYTES : Nat := 200 * 1024

/-- The JSON response of get_file; absent keys are none.  The mime guess is
external table lookup and no claim touches it, so it is omitted. -/
structure FileResp where
  name : String
  rel : String
  size : Nat
  is_text : Bool
  content : Option String
  truncated : Option Bool
  note : Option String
deriving DecidableEq

/-- server/app.py get_file: resolve and authorize the path, require a file,
read at most MAX_PREVIEW_BYTES, classify binary by a null byte in the read
window, and decode text with replacement (both decode arms mark the response
as text). -/
def get_file (fs : FS) (m : Manifest) (path : String) : Except HErr FileResp :=
  if path = "" then .error (400, "path required")
  else
    match resolveForOp m.projectRoot (opRootsAbs m) path with
    | .error e => .error e
    | .ok abs_path =>
      match fsRead fs abs_path with
      | none => .error (404, "not a file")
      | some bytes =>
        let size := bytes.length
        let data := bytes.take MAX_PREVIEW_BYTES
        if hasNullByte data then
          .ok { name := basename abs_path, rel := path, size := size,
                is_text := false, content := none, truncated := none,
                note := some "binary or unsupported text; preview omitted" }
        else
          .ok { name := basename abs_path, rel := path, size := size,
                is_text := true, content := some (utf8DecodeReplace data),
                truncated := some (decide (size > MAX_PREVIEW_BYTES)),
                note := none }

/-! ## Promotion: promote_file (server/app.py lines 467-493) -/

/-- The request body of the promote endpoint. -/
structure PromoteBody where
  from_rel : String
  to_rel : Option String
  overwrite : Bool

/-- Does the string contain a slash. -/
def strHasSlash (s : String) : Bool := s.data.any (fun c => c = '/')

/-- Python from_rel.split("/", 1)[1]: everything after the first slash. -/
def afterFirstSlash (s : String) : String :=
  ⟨(s.data.dropWhile (fun c => c ≠ '/')).drop 1⟩

/-- The suffix kept under the final write dir when no explicit destination is
given (server/app.py line 483). -/
def defaultSuffix (from_rel : String) : String :=
  if strHasSlash from_rel then afterFirstSlash from_rel else basename from_rel

/-- The destination relative path promote_file uses: the explicit to_rel
(stripped of leading slashes) when it is a non-empty string, else the staged
suffix re-rooted under the final write dir. -/
def promoteToRel (m : Manifest) (body : PromoteBody) : String :=
  match body.to_rel with
  | some t =>
    if t = "" then m.finalWriteRel ++ "/" ++ defaultSuffix (lstripSlash body.from_rel)
    else lstripSlash t
  | none => m.finalWriteRel ++ "/" ++ defaultSuffix (lstripSlash body.from_rel)

/-- server/app.py promote_file: the staged source must carry the effective
write-dir prefix (400), both paths must stay inside the project root (400),
the staged file must exist (404), an existing destination without overwrite
is a conflict (409), and success copies the bytes, leaving the source
untouched. -/
def promote_file (fs : FS) (m : Manifest) (body : PromoteBody) :
    Except HErr (FS × String) :=
  let from_rel := lstripSlash body.from_rel
  if strStartsWith from_rel (m.writeDirRel ++ "/") then
    match safe_join m.projectRoot from_rel with
    | none => .error (400, "invalid path")
    | some src_abs =>
      match fsRead fs src_abs with
      | none => .error (404, "staged file not found")
      | some srcBytes =>
        match safe_join m.projectRoot (promoteToRel m body) with
        | none => .error (400, "invalid path")
        | some dst_abs =>
          if (fsRead fs dst_abs).isSome && !body.overwrite then
            .error (409, "destination exists")
          else .ok (fsWrite fs dst_abs srcBytes, promoteToRel m body)
  else .error (400, "from_rel must start with " ++ m.writeDirRel ++ "/")

/-- The filesystem after a promote call: changed only on success (an
HTTPException aborts before any copy). -/
def promoteResultFS (fs : FS) (m : Manifest) (body : PromoteBody) : FS :=
  match promote_file fs m body with
  | .ok (fs2, _) => fs2
  | .error _ => fs

/-! ## Unified diff: get_diff (server/app.py lines 508-534)

difflib is standard-library code; it is modelled here from its documented
algorithm (SequenceMatcher without the junk heuristics, grouped opcodes with
three lines of context, unified output with lineterm = ""). -/

/-- Length of the longest common prefix of two line lists. -/
def commonLen : List String → List String → Nat
  | x :: a, y :: b => if x = y then commonLen a b + 1 else 0
  | _, _ => 0

/-- SequenceMatcher.find_longest_match on whole lists: the longest block
a[i:i+k] = b[j:j+k], earliest i then earliest j on ties. -/
def bestMatch (a b : List String) : Nat × Nat × Nat :=
  (List.range a.length).foldl
    (fun best i =>
      (List.range b.length).foldl
        (fun best j =>
          let k := commonLen (a.drop i) (b.drop j)
          if best.2.2 < k then (i, j, k) else best)
        best)
    (0, 0, 0)

/-- SequenceMatcher.get_matching_blocks (without terminator): recursively
split around the longest match.  Fuel is structural; any fuel above the total
length is enough. -/
def matchingBlocksGo : Nat → List String → List String → Nat → Nat →
    List (Nat × Nat × Nat)
  | 0, _, _, _, _ => []
  | fuel + 1, a, b, i0, j0 =>
    let m := bestMatch a b
    if m.2.2 = 0 then []
    else
      matchingBlocksGo fuel (a.take m.1) (b.take m.2.1) i0 j0 ++
        [(i0 + m.1, j0 + m.2.1, m.2.2)] ++
        matchingBlocksGo fuel (a.drop (m.1 + m.2.2)) (b.drop (m.2.1 + m.2.2))
          (i0 + m.1 + m.2.2) (j0 + m.2.1 + m.2.2)

/-- Matching blocks including the (len a, len b, 0) terminator. -/
def getMatchingBlocks (a b : List String) : List (Nat × Nat × Nat) :=
  matchingBlocksGo (a.length + b.length + 1) a b 0 0 ++ [(a.length, b.length, 0)]

/-- The four opcode tags of SequenceMatcher. -/
inductive DTag where
  | equal
  | replace
  | delete
  | insert
deriving DecidableEq

/-- One opcode: tag and the two half-open index ranges. -/
structure Op where
  tag : DTag
  i1 : Nat
  i2 : Nat
  j1 : Nat
  j2 : Nat
deriving DecidableEq

/-- SequenceMatcher.get_opcodes from the matching blocks. -/
def opcodesFromBlocks : Nat → Nat → List (Nat × Nat × Nat) → List Op
  | _, _, [] => []
  | i, j, (ai, bj, size) :: rest =>
    (if i < ai ∧ j < bj then [⟨.replace, i, ai, j, bj⟩]
     else if i < ai then [⟨.delete, i, ai, j, bj⟩]
     else if j < bj then [⟨.insert, i, ai, j, bj⟩]
     else []) ++
    (if size ≠ 0 then [⟨.equal, ai, ai + size, bj, bj + size⟩] else []) ++
    opcodesFromBlocks (ai + size) (bj + size) rest

/-- SequenceMatcher.get_opcodes. -/
def get_opcodes (a b : List String) : List Op :=
  opcodesFromBlocks 0 0 (getMatchingBlocks a b)

/-- Clip a leading equal opcode to at most n context lines. -/
def shrinkHead (n : Nat) : List Op → List Op
  | [] => []
  | op :: rest =>
    if op.tag = .equal then
      { op with i1 := max op.i1 (op.i2 - n), j1 := max op.j1 (op.j2 - n) } :: rest
    else op :: rest

/-- Clip a trailing equal opcode to at most n context lines. -/
def shrinkLastOp (n : Nat) : List Op → List Op
  | [] => []
  | [op] =>
    if op.tag = .equal then
      [{ op with i2 := min op.i2 (op.i1 + n), j2 := min op.j2 (op.j1 + n) }]
    else [op]
  | op :: rest => op :: shrinkLastOp n rest

/-- Is the group a single equal opcode (such a group is not emitted). -/
def isSingleEqual : List Op → Bool
  | [op] => op.tag = .equal
  | _ => false

/-- The grouping loop of get_grouped_opcodes: an equal run longer than 2n
closes the current group and opens the next one. -/
def groupLoop (n nn : Nat) (group : List Op) : List Op → List (List Op)
  | [] => if group.isEmpty || isSingleEqual group then [] else [group]
  | op :: rest =>
    if op.tag = .equal ∧ nn < op.i2 - op.i1 then
      (group ++ [{ op with i2 := min op.i2 (op.i1 + n), j2 := min op.j2 (op.j1 + n) }]) ::
        groupLoop n nn
          [{ op with i1 := max op.i1 (op.i2 - n), j1 := max op.j1 (op.j2 - n) }] rest
    else groupLoop n nn (group ++ [op]) rest

/-- SequenceMatcher.get_grouped_opcodes with context n. -/
def get_grouped_opcodes (n : Nat) (codes0 : List Op) : List (List Op) :=
  let codes1 := match codes0 with
    | [] => [⟨.equal, 0, 1, 0, 1⟩]
    | _ => codes0
  groupLoop n (n + n) [] (shrinkLastOp n (shrinkHead n codes1))

/-- difflib._format_range_unified. -/
def fmtRangeUnified (start stop : Nat) : String :=
  let len := stop - start
  if len = 1 then Nat.repr (start + 1)
  else Nat.repr (if len = 0 then start else start + 1) ++ "," ++ Nat.repr len

/-- Python list slice l[i:j]. -/
def sliceList (l : List String) (i j : Nat) : List String := (l.drop i).take (j - i)

/-- The body lines one opcode contributes to a hunk. -/
def hunkLines (a b : List String) (op : Op) : List String :=
  match op.tag with
  | .equal => (sliceList a op.i1 op.i2).map (fun s => " " ++ s)
  | .delete => (sliceList a op.i1 op.i2).map (fun s => "-" ++ s)
  | .insert => (sliceList b op.j1 op.j2).map (fun s => "+" ++ s)
  | .replace =>
    (sliceList a op.i1 op.i2).map (fun s => "-" ++ s) ++
      (sliceList b op.j1 op.j2).map (fun s => "+" ++ s)

/-- One hunk: the @@ header from the first and last opcode, then the bodies. -/
def formatHunk (a b : List String) (group : List Op) : List String :=
  ("@@ -" ++
      fmtRangeUnified (group.headD ⟨.equal, 0, 0, 0, 0⟩).i1
        (group.getLastD ⟨.equal, 0, 0, 0, 0⟩).i2 ++
      " +" ++
      fmtRangeUnified (group.headD ⟨.equal, 0, 0, 0, 0⟩).j1
        (group.getLastD ⟨.equal, 0, 0, 0, 0⟩).j2 ++
      " @@") :: group.flatMap (hunkLines a b)

/-- difflib.unified_diff(a, b, fromfile, tofile, lineterm="") as a line list:
file headers once before the first hunk, nothing at all when the sequences
agree. -/
def unified_diff (a b : List String) (fromfile tofile : String) : List String :=
  match get_grouped_opcodes 3 (get_opcodes a b) with
  | [] => []
  | groups => ("--- " ++ fromfile) :: ("+++ " ++ tofile) :: groups.flatMap (formatHunk a b)

/-- Python "\n".join. -/
def joinNL : List String → String
  | [] => ""
  | [x] => x
  | x :: xs => x ++ "\n" ++ joinNL xs

/-- str.splitlines(keepends=False) over the newline forms produced by
universal-newline text reading: a trailing terminator yields no empty last
line. -/
def splitLinesChars : List Char → List (List Char)
  | [] => []
  | '\r' :: '\n' :: rest => [] :: splitLinesChars rest
  | '\r' :: rest => [] :: splitLinesChars rest
  | '\n' :: rest => [] :: splitLinesChars rest
  | c :: rest =>
    match splitLinesChars rest with
    | [] => [[c]]
    | l :: ls => (c :: l) :: ls

/-- splitlines on a String. -/
def pySplitLines (s : String) : List String :=
  (splitLinesChars s.data).map (fun l => ⟨l⟩)

/-- get_diff._read_lines: a missing file reads as the empty line list,
otherwise the bytes are decoded with replacement and split into lines. -/
def readLines (fs : FS) (p : String) : List String :=
  match fsRead fs p with
  | none => []
  | some bytes => pySplitLines (utf8DecodeReplace bytes)

/-- The destination relative path get_diff compares against: the explicit
to_rel when non-empty, else the staged suffix under the final write dir
(server/app.py lines 520-522; unlike promote, the explicit value is not
stripped here, _safe_join strips it later). -/
def diffToRel (m : Manifest) (from_rel : String) (to_rel0 : Option String) : String :=
  match to_rel0 with
  | some t => if t = "" then m.finalWriteRel ++ "/" ++ defaultSuffix from_rel else t
  | none => m.finalWriteRel ++ "/" ++ defaultSuffix from_rel

/-- server/app.py get_diff: prefix check on the staged path (400), sandbox
joins (400), staged file required (404), then the unified diff of final
(fromfile) against staged (tofile), joined by newlines. -/
def get_diff (fs : FS) (m : Manifest) (from_rel0 : String) (to_rel0 : Option String) :
    Except HErr String :=
  let from_rel := lstripSlash from_rel0
  if strStartsWith from_rel (m.writeDirRel ++ "/") then
    match safe_join m.projectRoot from_rel with
    | none => .error (400, "invalid path")
    | some src_abs =>
      if (fsRead fs src_abs).isSome then
        let to_rel := diffToRel m from_rel to_rel0
        match safe_join m.projectRoot to_rel with
        | none => .error (400, "invalid path")
        | some dst_abs =>
          .ok (joinNL (unified_diff (readLines fs dst_abs) (readLines fs src_abs)
            to_rel from_rel))
      else .error (404, "staged not found")
  else .error (400, "from_rel must start with " ++ m.writeDirRel ++ "/")

/-! ## Search: search_files (server/app.py lines 235-265) -/

/-- A directory tree entry: a file, or a directory with its children. -/
inductive Entry where
  | file : String → Entry
  | dir : String → List Entry → Entry

/-- The name of an entry. -/
def Entry.name : Entry → String
  | .file n => n
  | .dir n _ => n

/-- Is the entry a directory. -/
def Entry.isDir : Entry → Bool
  | .file _ => false
  | .dir _ _ => true

/-- The children of an entry (a file has none). -/
def Entry.children : Entry → List Entry
  | .file _ => []
  | .dir _ cs => cs

/-- IGNORE_NAMES (server/app.py line 67). -/
def IGNORE_NAMES : List String :=
  [".git", "node_modules", ".venv", "__pycache__", "dist", "build", ".DS_Store"]

/-- The name filter applied both when pruning dirnames and inside the walk
loop: not in the ignore set and not a dotfile. -/
def keepName (n : String) : Bool :=
  !(IGNORE_NAMES.contains n) && !(strStartsWith n ".")

/-- Python str.lower, per character. -/
def strLower (s : String) : String := ⟨s.data.map Char.toLower⟩

/-- Substring membership on character lists (Python "x in y"). -/
def charSub (needle : List Char) : List Char → Bool
  | [] => needle.isEmpty
  | c :: rest => needle.isPrefixOf (c :: rest) || charSub needle rest

/-- The match test ql in name.lower(), with ql already lowered. -/
def nameMatches (ql name : String) : Bool := charSub ql.data (strLower name).data

/-- One search result row. -/
structure FsItem where
  name : String
  rel : String
  typ : String
deriving DecidableEq

/-- The pruned subdirectories of a directory, in listing order. -/
def dirEntriesOf (es : List Entry) : List Entry :=
  es.filter (fun e => e.isDir && keepName e.name)

/-- The files of a directory, in listing order. -/
def fileEntriesOf (es : List Entry) : List Entry :=
  es.filter (fun e => !e.isDir)

/-- The result row for one matching name. -/
def itemOf (relDir : String) (e : Entry) : FsItem :=
  ⟨e.name, relDir ++ "/" ++ e.name, if e.isDir then "dir" else "file"⟩

/-- The inner loop over dirnames + filenames of one directory: filter, match,
append, and return the whole response (.error) the moment the cap is
reached. -/
def visitNames (ql : String) (cap : Nat) (relDir : String) :
    List Entry → List FsItem → Except (List FsItem) (List FsItem)
  | [], acc => .ok acc
  | e :: rest, acc =>
    if keepName e.name && nameMatches ql e.name then
      if cap ≤ (acc ++ [itemOf relDir e]).length then .error (acc ++ [itemOf relDir e])
      else visitNames ql cap relDir rest (acc ++ [itemOf relDir e])
    else visitNames ql cap relDir rest acc

/-- os.walk in top-down depth-first order over a work list of directories
(rel path and entries); each step handles one directory and prepends its
pruned subdirectories.  Fuel is structural; one unit per directory
suffices. -/
def searchLoop (ql : String) (cap : Nat) :
    Nat → List (String × List Entry) → List FsItem → Except (List FsItem) (List FsItem)
  | 0, _, acc => .ok acc
  | _ + 1, [], acc => .ok acc
  | fuel + 1, (relDir, es) :: rest, acc =>
    match visitNames ql cap relDir (dirEntriesOf es ++ fileEntriesOf es) acc with
    | .error r => .error r
    | .ok acc2 =>
      searchLoop ql cap fuel
        ((dirEntriesOf es).map (fun e => (relDir ++ "/" ++ e.name, e.children)) ++ rest)
        acc2

/-- The clamp max(1, min(limit, 1000)) of server/app.py line 263. -/
def clampLimit (limit : Int) : Nat := (max 1 (min limit 1000)).toNat

/-- server/app.py search_files over the directory forest of the allowed
roots (pairs of root rel path and entries, in opRootsRel order): empty query
short-circuits, otherwise walk every root and stop at the clamp. -/
def search_files (q : String) (limit : Int) (fuel : Nat)
    (forest : List (String × List Entry)) : List FsItem :=
  if q = "" then []
  else
    match searchLoop (strLower q) (clampLimit limit) fuel forest [] with
    | .error r => r
    | .ok r => r

/-- The same traversal with no cap: every match, in visit order. -/
def collectNames (ql relDir : String) : List Entry → List FsItem
  | [] => []
  | e :: rest =>
    (if keepName e.name && nameMatches ql e.name then [itemOf relDir e] else []) ++
      collectNames ql relDir rest

/-- All matches the capped walk would visit, in visit order, with the same
fuel accounting. -/
def collectLoop (ql : String) : Nat → List (String × List Entry) → List FsItem
  | 0, _ => []
  | _ + 1, [] => []
  | fuel + 1, (relDir, es) :: rest =>
    collectNames ql relDir (dirEntriesOf es ++ fileEntriesOf es) ++
      collectLoop ql fuel
        ((dirEntriesOf es).map (fun e => (relDir ++ "/" ++ e.name, e.children)) ++ rest)

/-! ## Mention resolution

Modelled from the spec: the MentionResolver (alias substitution on the first
path segment of an @token) is frontend code of this repository, not under
src/server; only the alias hint text built for the agent prompt
(build_alias_hint, server/app.py lines 117-129) appears in the server.  The
definitions below follow section 4.3 of the spec: split the token on the
first slash, look the head up in the alias table with alias keys stripped of
a leading @, substitute on a hit, keep the head literally otherwise, rejoin
the tail. -/

/-- Strip one leading @ if present. -/
def stripAtSign (s : String) : String :=
  if strStartsWith s "@" then ⟨s.data.drop 1⟩ else s

/-- Break a character list at the first slash. -/
def breakSlashChars : List Char → Option (List Char × List Char)
  | [] => none
  | c :: rest =>
    if c = '/' then some ([], rest)
    else
      match breakSlashChars rest with
      | none => none
      | some (h, t) => some (c :: h, t)

/-- Split a string at its first slash, none when it has no slash. -/
def breakFirstSlash (s : String) : Option (String × String) :=
  match breakSlashChars s.data with
  | none => none
  | some (h, t) => some (⟨h⟩, ⟨t⟩)

/-- Look a head segment up in the alias table, alias keys stripped of a
leading @, first hit wins. -/
def aliasLookup (aliases : List (String × String)) (head : String) : Option String :=
  match aliases with
  | [] => none
  | (k, v) :: rest => if stripAtSign k = head then some v else aliasLookup rest head

/-- Modelled from the spec: MentionResolver.resolve for an @token. -/
def resolveMention (aliases : List (String × String)) (token : String) : String :=
  match breakFirstSlash (stripAtSign token) with
  | none => ((aliasLookup aliases (stripAtSign token)).getD (stripAtSign token))
  | some (head, tail) => ((aliasLookup aliases head).getD head) ++ "/" ++ tail

/-! ## Shared fixtures for witnesses -/

/-- A concrete manifest: approval mode on, one read-only root, one alias. -/
def mEx : Manifest :=
  ⟨"/srv/proj", ["docs"], "output_pending", "output", [("input", "docs/input")]⟩

/-! ## Concrete fixtures for witnesses and counterexamples -/

/-- Staged markdown bytes for the C6 witness: the text hi, then yo. -/
def fsC6 : FS := [("/srv/proj/output_pending/new.md", [104, 105, 10, 121, 111])]

/-- Concrete staged filesystem for the C2 witness. -/
def fsC2 : FS := [("/srv/proj/output_pending/r.md", [104, 105])]

/-- Concrete promote request for the C2 witness. -/
def bodyC2 : PromoteBody := ⟨"output_pending/r.md", none, true⟩

/-- Filesystem with a staged file and an existing final file for C3. -/
def fsC3 : FS :=
  [("/srv/proj/output_pending/r.md", [104, 105]),
   ("/srv/proj/output/r.md", [111, 108, 100])]

/-- Promote request with overwrite off for C3. -/
def bodyC3 : PromoteBody := ⟨"output_pending/r.md", none, false⟩

/-- An oversized all-ASCII file: one byte past the preview cap. -/
def fsBig : FS := [("/srv/proj/docs/big.txt", List.replicate (MAX_PREVIEW_BYTES + 1) 65)]

/-- A small binary file: a null byte up front. -/
def fsBin : FS := [("/srv/proj/docs/bin.dat", [0, 65])]

/-- A second binary fixture, a lone null byte. -/
def fsBin2 : FS := [("/srv/proj/docs/zero.bin", [0])]

/-- A file that is clean ASCII for the whole preview window and has a null
byte right after it. -/
def fsLateNull : FS :=
  [("/srv/proj/docs/blob.bin", List.replicate MAX_PREVIEW_BYTES 65 ++ [0])]

/-- A root directory with fifty matching file names. -/
def bigForest : List (String × List Entry) :=
  [("docs", (List.range 50).map (fun i => Entry.file ("match" ++ Nat.repr i)))]

/-- An extra root that would also match, queued after the cap fires. -/
def extraForest : List (String × List Entry) := [("other", [Entry.file "matchx"])]

/-- The HTTP status code of a result, none on success. -/
def errCode {α : Type} : Except HErr α → Option Nat
  | .error e => some e.1
  | .ok _ => none

/-- A promote request with a missing staged source and an escaping explicit
destination. -/
def bodyC9 : PromoteBody := ⟨"output_pending/ghost.txt", some "../../etc/evil", true⟩

/-- A staged file ready for promotion into a read-only root. -/
def fsC9 : FS := [("/srv/proj/output_pending/r.md", [104])]

/-- An explicit destination under the read-only docs root. -/
def bodyW9 : PromoteBody := ⟨"output_pending/r.md", some "docs/evil.md", true⟩

/-! ## C1 -/

/-- C1: resolution of a relative input for a read or browse operation fails
with the 400 invalid-path error whenever the canonicalized join with the
project root leaves the project root, and with the 403 forbidden error
whenever it stays inside the project root but inside none of the allowed
roots of the operation. -/
theorem claim_C1_sandbox_resolution (root : String) (roots : List String) (rel : String) :
    (withinRoot (realpathStr (joinPath root (backToFwd (lstripSlash rel))))
        (realpathStr root) = false →
      resolveForOp root roots rel = .error (400, "invalid path"))
    ∧ (∀ p, safe_join root rel = some p → is_subpath p roots = false →
      resolveForOp root roots rel = .error (403, "path not allowed")) := by
  constructor
  · intro h
    unfold resolveForOp safe_join
    simp [h]
  · intro p hp hsub
    unfold resolveForOp
    rw [hp]
    simp [hsub]

/-- C1 witness: a dot-dot traversal out of the project root is a 400, and a
path inside the root but outside the allowed roots is a 403. -/
theorem claim_C1_sandbox_resolution_witness :
    resolveForOp "/srv/proj" ["/srv/proj/docs", "/srv/proj/output_pending"]
        "../../etc/passwd" = .error (400, "invalid path")
    ∧ resolveForOp "/srv/proj" ["/srv/proj/docs", "/srv/proj/output_pending"]
        "secret.txt" = .error (403, "path not allowed") :=
  ⟨(claim_C1_sandbox_resolution "/srv/proj" ["/srv/proj/docs", "/srv/proj/output_pending"]
      "../../etc/passwd").1 (by decide),
   (claim_C1_sandbox_resolution "/srv/proj" ["/srv/proj/docs", "/srv/proj/output_pending"]
      "secret.txt").2 "/srv/proj/secret.txt" (by decide) (by decide)⟩

/-! ## C2 -/

/-- C2: promoting a staged file with overwrite on copies its bytes to the
destination, after which both the destination and the untouched staged
source hold exactly the staged content (copy, not move). -/
theorem claim_C2_promotion_roundtrip (fs : FS) (m : Manifest) (body : PromoteBody)
    (src_abs dst_abs : String) (C : List Nat)
    (hpre : strStartsWith (lstripSlash body.from_rel) (m.writeDirRel ++ "/") = true)
    (hsrc : safe_join m.projectRoot (lstripSlash body.from_rel) = some src_abs)
    (hread : fsRead fs src_abs = some C)
    (hdst : safe_join m.projectRoot (promoteToRel m body) = some dst_abs)
    (hov : body.overwrite = true) :
    promote_file fs m body = .ok (fsWrite fs dst_abs C, promoteToRel m body)
    ∧ fsRead (fsWrite fs dst_abs C) dst_abs = some C
    ∧ fsRead (fsWrite fs dst_abs C) src_abs = some C := by
  refine ⟨?_, ?_, ?_⟩
  · unfold promote_file
    simp [hpre, hsrc, hread, hdst, hov]
  · simp [fsWrite, fsRead]
  · simp only [fsWrite, fsRead]
    split
    · rfl
    · exact hread

/-- C2 witness: promoting output_pending/r.md lands its bytes at
output/r.md and the staged copy keeps them too. -/
theorem claim_C2_promotion_roundtrip_witness :
    promote_file fsC2 mEx bodyC2 =
      .ok (fsWrite fsC2 "/srv/proj/output/r.md" [104, 105], promoteToRel mEx bodyC2)
    ∧ fsRead (fsWrite fsC2 "/srv/proj/output/r.md" [104, 105]) "/srv/proj/output/r.md"
        = some [104, 105]
    ∧ fsRead (fsWrite fsC2 "/srv/proj/output/r.md" [104, 105])
        "/srv/proj/output_pending/r.md" = some [104, 105] :=
  claim_C2_promotion_roundtrip fsC2 mEx bodyC2 "/srv/proj/output_pending/r.md"
    "/srv/proj/output/r.md" [104, 105] (by decide) (by decide) (by decide) (by decide) rfl

/-! ## C3 -/

/-- C3: promoting onto an existing destination with overwrite off fails with
the 409 conflict error, the filesystem is unchanged, and the destination
keeps its bytes. -/
theorem claim_C3_promotion_conflict (fs : FS) (m : Manifest) (body : PromoteBody)
    (src_abs dst_abs : String) (C D : List Nat)
    (hpre : strStartsWith (lstripSlash body.from_rel) (m.writeDirRel ++ "/") = true)
    (hsrc : safe_join m.projectRoot (lstripSlash body.from_rel) = some src_abs)
    (hread : fsRead fs src_abs = some C)
    (hdst : safe_join m.projectRoot (promoteToRel m body) = some dst_abs)
    (hexist : fsRead fs dst_abs = some D)
    (hov : body.overwrite = false) :
    promote_file fs m body = .error (409, "destination exists")
    ∧ promoteResultFS fs m body = fs
    ∧ fsRead (promoteResultFS fs m body) dst_abs = some D := by
  have h409 : promote_file fs m body = .error (409, "destination exists") := by
    unfold promote_file
    simp [hpre, hsrc, hread, hdst, hexist, hov]
  refine ⟨h409, ?_, ?_⟩
  · unfold promoteResultFS
    rw [h409]
  · unfold promoteResultFS
    rw [h409]
    exact hexist

/-- C3 witness: with output/r.md already present and overwrite off, promote
answers 409 and output/r.md keeps its old bytes. -/
theorem claim_C3_promotion_conflict_witness :
    promote_file fsC3 mEx bodyC3 = .error (409, "destination exists")
    ∧ promoteResultFS fsC3 mEx bodyC3 = fsC3
    ∧ fsRead (promoteResultFS fsC3 mEx bodyC3) "/srv/proj/output/r.md"
        = some [111, 108, 100] :=
  claim_C3_promotion_conflict fsC3 mEx bodyC3 "/srv/proj/output_pending/r.md"
    "/srv/proj/output/r.md" [104, 105] [111, 108, 100] (by decide) (by decide)
    (by decide) (by decide) (by decide) rfl

/-! ## get_file helper lemmas (shared by C4, C8, C10) -/

/-- When the first MAX_PREVIEW_BYTES bytes hold no null byte, get_file
answers 200 with the replacement-decoded window, is_text true and an honest
truncation flag. -/
theorem getFile_text (fs : FS) (m : Manifest) (path abs_path : String) (bytes : List Nat)
    (hpath : path ≠ "")
    (hres : resolveForOp m.projectRoot (opRootsAbs m) path = .ok abs_path)
    (hread : fsRead fs abs_path = some bytes)
    (hnull : hasNullByte (bytes.take MAX_PREVIEW_BYTES) = false) :
    get_file fs m path = .ok
      { name := basename abs_path, rel := path, size := bytes.length,
        is_text := true,
        content := some (utf8DecodeReplace (bytes.take MAX_PREVIEW_BYTES)),
        truncated := some (decide (bytes.length > MAX_PREVIEW_BYTES)),
        note := none } := by
  unfold get_file
  simp [hpath, hres, hread, hnull]

/-- When the first MAX_PREVIEW_BYTES bytes hold a null byte, get_file
answers 200 with is_text false and no content. -/
theorem getFile_binary (fs : FS) (m : Manifest) (path abs_path : String) (bytes : List Nat)
    (hpath : path ≠ "")
    (hres : resolveForOp m.projectRoot (opRootsAbs m) path = .ok abs_path)
    (hread : fsRead fs abs_path = some bytes)
    (hnull : hasNullByte (bytes.take MAX_PREVIEW_BYTES) = true) :
    get_file fs m path = .ok
      { name := basename abs_path, rel := path, size := bytes.length,
        is_text := false, content := none, truncated := none,
        note := some "binary or unsupported text; preview omitted" } := by
  unfold get_file
  simp [hpath, hres, hread, hnull]

/-- A run of one non-null byte never holds a null byte. -/
theorem hasNullByte_replicate (n a : Nat) (h : a ≠ 0) :
    hasNullByte (List.replicate n a) = false := by
  induction n with
  | zero => rfl
  | succ k ih => simp [List.replicate_succ, hasNullByte, ih, h]

/-! ## C4 (corrected) -/

/-- C4 counterexample: a file one byte over the inline cap is not rejected
with a payload-too-large error; get_file answers 200 and merely flags
truncated = true, refuting the claimed TooLarge failure. -/
theorem claim_C4_counterexample :
    Except.map FileResp.truncated (get_file fsBig mEx "docs/big.txt") = .ok (some true)
    ∧ Except.map FileResp.is_text (get_file fsBig mEx "docs/big.txt") = .ok true := by
  have hread : fsRead fsBig "/srv/proj/docs/big.txt"
      = some (List.replicate (MAX_PREVIEW_BYTES + 1) 65) := rfl
  have hnull : hasNullByte ((List.replicate (MAX_PREVIEW_BYTES + 1) 65).take
      MAX_PREVIEW_BYTES) = false := by
    rw [List.take_replicate]
    exact hasNullByte_replicate _ 65 (by decide)
  have h := getFile_text fsBig mEx "docs/big.txt" "/srv/proj/docs/big.txt"
    (List.replicate (MAX_PREVIEW_BYTES + 1) 65) (by decide) (by decide) hread hnull
  have h2 : decide ((List.replicate (MAX_PREVIEW_BYTES + 1) 65).length
      > MAX_PREVIEW_BYTES) = true := by
    rw [List.length_replicate]
    decide
  rw [h, h2]
  exact ⟨rfl, rfl⟩

/-- C4: the claim as the code has it.  Reading a file larger than
MAX_PREVIEW_BYTES succeeds: the content is the decode of exactly the first
MAX_PREVIEW_BYTES bytes and the response carries an explicit truncated =
true flag; no TooLarge error exists in this handler. -/
theorem claim_C4_preview_cap (fs : FS) (m : Manifest) (path abs_path : String)
    (bytes : List Nat)
    (hpath : path ≠ "")
    (hres : resolveForOp m.projectRoot (opRootsAbs m) path = .ok abs_path)
    (hread : fsRead fs abs_path = some bytes)
    (hnull : hasNullByte (bytes.take MAX_PREVIEW_BYTES) = false)
    (hbig : MAX_PREVIEW_BYTES < bytes.length) :
    get_file fs m path = .ok
      { name := basename abs_path, rel := path, size := bytes.length,
        is_text := true,
        content := some (utf8DecodeReplace (bytes.take MAX_PREVIEW_BYTES)),
        truncated := some true, note := none } := by
  have h := getFile_text fs m path abs_path bytes hpath hres hread hnull
  rw [h]
  simp [hbig]

/-- C4 witness: the oversized ASCII file from the counterexample satisfies
every hypothesis of the amended statement. -/
theorem claim_C4_preview_cap_witness :
    get_file fsBig mEx "docs/big.txt" = .ok
      { name := basename "/srv/proj/docs/big.txt", rel := "docs/big.txt",
        size := (List.replicate (MAX_PREVIEW_BYTES + 1) 65).length,
        is_text := true,
        content := some (utf8DecodeReplace
          ((List.replicate (MAX_PREVIEW_BYTES + 1) 65).take MAX_PREVIEW_BYTES)),
        truncated := some true, note := none } :=
  claim_C4_preview_cap fsBig mEx "docs/big.txt" "/srv/proj/docs/big.txt"
    (List.replicate (MAX_PREVIEW_BYTES + 1) 65) (by decide) (by decide) rfl
    (by rw [List.take_replicate]; exact hasNullByte_replicate _ 65 (by decide))
    (by rw [List.length_replicate]; exact Nat.lt_succ_self _)

/-! ## C8 (corrected) -/

/-- C8 counterexample: a file whose content holds a null byte is not failed
with an unsupported-media error; get_file answers 200 with is_text false and
the preview omitted, refuting the claimed NotText failure. -/
theorem claim_C8_counterexample :
    get_file fsBin mEx "docs/bin.dat" = .ok
      { name := "bin.dat", rel := "docs/bin.dat", size := 2, is_text := false,
        content := none, truncated := none,
        note := some "binary or unsupported text; preview omitted" } := by decide

/-- C8: the claim as the code has it.  A null byte in the first
MAX_PREVIEW_BYTES bytes makes get_file answer 200 with is_text false and no
decoded text (preview omitted), rather than an unsupported-media error. -/
theorem claim_C8_binary_no_text (fs : FS) (m : Manifest) (path abs_path : String)
    (bytes : List Nat)
    (hpath : path ≠ "")
    (hres : resolveForOp m.projectRoot (opRootsAbs m) path = .ok abs_path)
    (hread : fsRead fs abs_path = some bytes)
    (hnull : hasNullByte (bytes.take MAX_PREVIEW_BYTES) = true) :
    get_file fs m path = .ok
      { name := basename abs_path, rel := path, size := bytes.length,
        is_text := false, content := none, truncated := none,
        note := some "binary or unsupported text; preview omitted" } :=
  getFile_binary fs m path abs_path bytes hpath hres hread hnull

/-- C8 witness: a one-null-byte file flows through the amended statement. -/
theorem claim_C8_binary_no_text_witness :
    get_file fsBin2 mEx "docs/zero.bin" = .ok
      { name := basename "/srv/proj/docs/zero.bin", rel := "docs/zero.bin",
        size := ([0] : List Nat).length, is_text := false, content := none,
        truncated := none,
        note := some "binary or unsupported text; preview omitted" } :=
  claim_C8_binary_no_text fsBin2 mEx "docs/zero.bin" "/srv/proj/docs/zero.bin" [0]
    (by decide) (by decide) rfl (by decide)

/-! ## C10 -/

/-- C10: when the first min(size, MAX_PREVIEW_BYTES) bytes hold no null
byte, get_file classifies the file as text and returns those bytes decoded
as UTF-8 with replacement of undecodable sequences; decoding never fails,
and bytes beyond the window are never examined by the classification (the
hypothesis constrains only the window). -/
theorem claim_C10_text_classification (fs : FS) (m : Manifest) (path abs_path : String)
    (bytes : List Nat)
    (hpath : path ≠ "")
    (hres : resolveForOp m.projectRoot (opRootsAbs m) path = .ok abs_path)
    (hread : fsRead fs abs_path = some bytes)
    (hnull : hasNullByte (bytes.take MAX_PREVIEW_BYTES) = false) :
    get_file fs m path = .ok
      { name := basename abs_path, rel := path, size := bytes.length,
        is_text := true,
        content := some (utf8DecodeReplace (bytes.take MAX_PREVIEW_BYTES)),
        truncated := some (decide (bytes.length > MAX_PREVIEW_BYTES)),
        note := none } :=
  getFile_text fs m path abs_path bytes hpath hres hread hnull

/-- C10 witness: the null byte sitting just past the 200 KiB window does not
stop the file from being classified as text. -/
theorem claim_C10_text_classification_witness :
    get_file fsLateNull mEx "docs/blob.bin" = .ok
      { name := basename "/srv/proj/docs/blob.bin", rel := "docs/blob.bin",
        size := (List.replicate MAX_PREVIEW_BYTES 65 ++ [0]).length,
        is_text := true,
        content := some (utf8DecodeReplace
          ((List.replicate MAX_PREVIEW_BYTES 65 ++ [0]).take MAX_PREVIEW_BYTES)),
        truncated := some (decide
          ((List.replicate MAX_PREVIEW_BYTES 65 ++ [0]).length > MAX_PREVIEW_BYTES)),
        note := none } :=
  claim_C10_text_classification fsLateNull mEx "docs/blob.bin"
    "/srv/proj/docs/blob.bin" (List.replicate MAX_PREVIEW_BYTES 65 ++ [0])
    (by decide) (by decide) rfl
    (by
      have h : (List.replicate MAX_PREVIEW_BYTES 65 ++ [0]).take MAX_PREVIEW_BYTES
          = List.replicate MAX_PREVIEW_BYTES 65 := by
        have := List.take_left (List.replicate MAX_PREVIEW_BYTES 65) ([0] : List Nat)
        rwa [List.length_replicate] at this
      rw [h]
      exact hasNullByte_replicate _ 65 (by decide))

/-! ## C5 -/

/-- Prepending an @ and stripping it again is the identity. -/
theorem stripAtSign_at (s : String) : stripAtSign ("@" ++ s) = s := by
  have hd : ("@" ++ s).data = '@' :: s.data := by
    rw [String.data_append]
    rfl
  have hq : "@".data = ['@'] := rfl
  unfold stripAtSign strStartsWith
  rw [hd, hq]
  simp [List.isPrefixOf]

/-- Breaking at the first slash undoes gluing a slash-free head onto a
tail. -/
theorem breakSlashChars_append (h t : List Char) (hh : '/' ∉ h) :
    breakSlashChars (h ++ '/' :: t) = some (h, t) := by
  induction h with
  | nil => simp [breakSlashChars]
  | cons c cs ih =>
    have hc : c ≠ '/' := fun e => hh (by rw [e]; exact List.mem_cons_self _ _)
    have ih2 := ih (fun m => hh (List.mem_cons_of_mem _ m))
    simp [breakSlashChars, hc, ih2]

/-- The string form of breakSlashChars_append. -/
theorem breakFirstSlash_append (head tail : String) (hh : strHasSlash head = false) :
    breakFirstSlash (head ++ "/" ++ tail) = some (head, tail) := by
  have hmem : '/' ∉ head.data := by
    intro m
    have : strHasSlash head = true := by
      unfold strHasSlash
      exact List.any_eq_true.mpr ⟨'/', m, by simp⟩
    rw [this] at hh
    cases hh
  have hd : (head ++ "/" ++ tail).data = head.data ++ '/' :: tail.data := by
    rw [String.data_append, String.data_append, List.append_assoc]
    rfl
  unfold breakFirstSlash
  rw [hd, breakSlashChars_append head.data tail.data hmem]

/-- C5: mention resolution splits the token at its first slash, substitutes
the head through the alias table when a (possibly @-prefixed) alias key
matches, keeps the head literally otherwise, and rejoins the tail; in
particular @input/report.txt with alias input resolves to
docs/input/report.txt and @notes.txt without an alias stays notes.txt. -/
theorem claim_C5_mention_resolution (aliases : List (String × String))
    (head tail v : String) (hhead : strHasSlash head = false) :
    (aliasLookup aliases head = some v →
       resolveMention aliases ("@" ++ (head ++ "/" ++ tail)) = v ++ "/" ++ tail)
    ∧ (aliasLookup aliases head = none →
       resolveMention aliases ("@" ++ (head ++ "/" ++ tail)) = head ++ "/" ++ tail)
    ∧ resolveMention [("input", "docs/input")] "@input/report.txt"
        = "docs/input/report.txt"
    ∧ resolveMention [("input", "docs/input")] "@notes.txt" = "notes.txt" := by
  refine ⟨?_, ?_, by decide, by decide⟩ <;> intro hl <;>
    simp [resolveMention, stripAtSign_at, breakFirstSlash_append head tail hhead, hl]

/-- C5 witness: the alias hit case at the concrete example table. -/
theorem claim_C5_mention_resolution_witness :
    resolveMention [("input", "docs/input")] ("@" ++ ("input" ++ "/" ++ "report.txt"))
      = "docs/input" ++ "/" ++ "report.txt" :=
  (claim_C5_mention_resolution [("input", "docs/input")] "input" "report.txt"
    "docs/input" (by decide)).1 (by decide)

/-! ## C6 -/

/-- An empty left sequence admits no matching block. -/
theorem bestMatch_nil_left (b : List String) : bestMatch [] b = (0, 0, 0) := by
  simp [bestMatch]

/-- Hence the recursive block search stops at once. -/
theorem matchingBlocksGo_nil_left (n : Nat) (b : List String) (i j : Nat) :
    matchingBlocksGo (n + 1) [] b i j = [] := by
  simp [matchingBlocksGo, bestMatch_nil_left]

/-- Matching blocks of [] against b: just the terminator. -/
theorem getMatchingBlocks_nil_left (b : List String) :
    getMatchingBlocks [] b = [(0, b.length, 0)] := by
  unfold getMatchingBlocks
  rw [show ([] : List String).length + b.length + 1 = b.length + 1 by simp]
  rw [matchingBlocksGo_nil_left]
  simp

/-- Opcodes of [] against a non-empty b: one insert of all of b. -/
theorem get_opcodes_nil_left (l : String) (ls : List String) :
    get_opcodes [] (l :: ls) = [⟨.insert, 0, 0, 0, (l :: ls).length⟩] := by
  rw [get_opcodes, getMatchingBlocks_nil_left]
  simp [opcodesFromBlocks, Nat.succ_pos]

/-- A lone insert opcode forms exactly one group. -/
theorem grouped_insert (N : Nat) :
    get_grouped_opcodes 3 [⟨.insert, 0, 0, 0, N⟩] = [[⟨.insert, 0, 0, 0, N⟩]] := by
  simp [get_grouped_opcodes, shrinkHead, shrinkLastOp, groupLoop, isSingleEqual]

/-- The unified diff of a missing baseline against staged lines: both file
headers, the zero-source hunk header, then every staged line as an
addition. -/
theorem unified_diff_nil_left (l : String) (ls : List String) (ff tf : String) :
    unified_diff [] (l :: ls) ff tf =
      ("--- " ++ ff) :: ("+++ " ++ tf) ::
        ("@@ -0,0 +" ++ fmtRangeUnified 0 (l :: ls).length ++ " @@") ::
        (l :: ls).map (fun s => "+" ++ s) := by
  unfold unified_diff
  rw [get_opcodes_nil_left, grouped_insert]
  have hfmt : fmtRangeUnified 0 0 = "0,0" := by decide
  have hA : ("@@ -" ++ "0,0") ++ " +" = "@@ -0,0 +" := by decide
  simp [formatHunk, hunkLines, sliceList, hfmt, hA, List.take_length]

/-- C6: diffing a staged file against a final destination that does not
exist yields a patch whose body is purely additions (every staged line once,
zero removals), labeled with the final path as fromfile and the staged path
as tofile. -/
theorem claim_C6_diff_new_file (fs : FS) (m : Manifest) (from_rel0 : String)
    (src_abs dst_abs : String) (bytes : List Nat) (L : List String)
    (hpre : strStartsWith (lstripSlash from_rel0) (m.writeDirRel ++ "/") = true)
    (hsrc : safe_join m.projectRoot (lstripSlash from_rel0) = some src_abs)
    (hbytes : fsRead fs src_abs = some bytes)
    (hdst : safe_join m.projectRoot (diffToRel m (lstripSlash from_rel0) none)
      = some dst_abs)
    (hmiss : fsRead fs dst_abs = none)
    (hlines : pySplitLines (utf8DecodeReplace bytes) = L)
    (hne : L ≠ []) :
    get_diff fs m from_rel0 none =
      .ok (joinNL (("--- " ++ diffToRel m (lstripSlash from_rel0) none) ::
        ("+++ " ++ lstripSlash from_rel0) ::
        ("@@ -0,0 +" ++ fmtRangeUnified 0 L.length ++ " @@") ::
        L.map (fun s => "+" ++ s))) := by
  have hlinesSrc : readLines fs src_abs = L := by simp [readLines, hbytes, hlines]
  have hnil : readLines fs dst_abs = [] := by simp [readLines, hmiss]
  obtain ⟨l, ls, rfl⟩ : ∃ l ls, L = l :: ls := by
    cases L with
    | nil => exact absurd rfl hne
    | cons a b => exact ⟨a, b, rfl⟩
  unfold get_diff
  simp only [hpre, if_true, hsrc, hdst, hbytes, Option.isSome_some]
  rw [hnil, hlinesSrc, unified_diff_nil_left]

/-- C6 witness: diffing staged output_pending/new.md against the absent
output/new.md yields exactly the two headers, the zero-source hunk header
and the two added lines. -/
theorem claim_C6_diff_new_file_witness :
    get_diff fsC6 mEx "output_pending/new.md" none =
      .ok (joinNL (("--- " ++ diffToRel mEx (lstripSlash "output_pending/new.md") none) ::
        ("+++ " ++ lstripSlash "output_pending/new.md") ::
        ("@@ -0,0 +" ++ fmtRangeUnified 0 (["hi", "yo"] : List String).length ++ " @@") ::
        (["hi", "yo"] : List String).map (fun s => "+" ++ s))) :=
  claim_C6_diff_new_file fsC6 mEx "output_pending/new.md"
    "/srv/proj/output_pending/new.md" "/srv/proj/output/new.md"
    [104, 105, 10, 121, 111] ["hi", "yo"] (by decide) (by decide) rfl (by decide)
    (by decide) (by decide) (by decide)

/-! ## C7 -/

/-- The capped inner loop against the uncapped collector: below the cap it
either finishes with every match of the directory appended, or exits early
with exactly the first cap matches. -/
theorem visitNames_spec (ql : String) (cap : Nat) (relDir : String)
    (es : List Entry) : ∀ (acc : List FsItem), acc.length < cap →
    visitNames ql cap relDir es acc =
      if (acc ++ collectNames ql relDir es).length < cap
      then .ok (acc ++ collectNames ql relDir es)
      else .error ((acc ++ collectNames ql relDir es).take cap) := by
  induction es with
  | nil =>
    intro acc hacc
    simp [visitNames, collectNames, hacc]
  | cons e rest ih =>
    intro acc hacc
    have hstep : visitNames ql cap relDir (e :: rest) acc =
        if keepName e.name && nameMatches ql e.name then
          (if cap ≤ (acc ++ [itemOf relDir e]).length then
            .error (acc ++ [itemOf relDir e])
          else visitNames ql cap relDir rest (acc ++ [itemOf relDir e]))
        else visitNames ql cap relDir rest acc := rfl
    have hcoll : collectNames ql relDir (e :: rest)
        = (if keepName e.name && nameMatches ql e.name then [itemOf relDir e] else [])
          ++ collectNames ql relDir rest := rfl
    rw [hstep, hcoll]
    by_cases hm : (keepName e.name && nameMatches ql e.name) = true
    · rw [if_pos hm, if_pos hm]
      by_cases hcap : cap ≤ (acc ++ [itemOf relDir e]).length
      · rw [if_pos hcap]
        have hceq : (acc ++ [itemOf relDir e]).length = cap := by
          simp only [List.length_append, List.length_cons, List.length_nil] at hcap ⊢
          omega
        have hlen : ¬ ((acc ++ ([itemOf relDir e] ++
            collectNames ql relDir rest)).length < cap) := by
          simp only [List.length_append, List.length_cons, List.length_nil] at hcap ⊢
          omega
        rw [if_neg hlen, ← List.append_assoc, List.take_left' hceq]
      · rw [if_neg hcap]
        have hlt : (acc ++ [itemOf relDir e]).length < cap := Nat.lt_of_not_le hcap
        rw [ih (acc ++ [itemOf relDir e]) hlt, List.append_assoc]
    · have hm2 : (keepName e.name && nameMatches ql e.name) = false :=
        Bool.not_eq_true _ ▸ Bool.of_not_eq_true hm
      rw [if_neg hm, if_neg hm]
      simp only [List.nil_append]
      exact ih acc hacc

/-- The capped walk against the uncapped collector, any fuel and work list:
below the cap the walk either finishes with every reachable match or exits
early with exactly the first cap of them. -/
theorem searchLoop_spec (ql : String) (cap : Nat) (fuel : Nat) :
    ∀ (wl : List (String × List Entry)) (acc : List FsItem), acc.length < cap →
    searchLoop ql cap fuel wl acc =
      if (acc ++ collectLoop ql fuel wl).length < cap
      then .ok (acc ++ collectLoop ql fuel wl)
      else .error ((acc ++ collectLoop ql fuel wl).take cap) := by
  induction fuel with
  | zero =>
    intro wl acc hacc
    simp [searchLoop, collectLoop, hacc]
  | succ fuel ih =>
    intro wl acc hacc
    cases wl with
    | nil => simp [searchLoop, collectLoop, hacc]
    | cons hd rest =>
      obtain ⟨relDir, es⟩ := hd
      have hstep : searchLoop ql cap (fuel + 1) ((relDir, es) :: rest) acc =
          match visitNames ql cap relDir (dirEntriesOf es ++ fileEntriesOf es) acc with
          | .error r => .error r
          | .ok acc2 =>
            searchLoop ql cap fuel
              ((dirEntriesOf es).map (fun e => (relDir ++ "/" ++ e.name, e.children))
                ++ rest) acc2 := rfl
      have hcl : collectLoop ql (fuel + 1) ((relDir, es) :: rest)
          = collectNames ql relDir (dirEntriesOf es ++ fileEntriesOf es)
            ++ collectLoop ql fuel
              ((dirEntriesOf es).map (fun e => (relDir ++ "/" ++ e.name, e.children))
                ++ rest) := rfl
      rw [hstep, hcl, visitNames_spec ql cap relDir _ acc hacc]
      by_cases hv : (acc ++ collectNames ql relDir
          (dirEntriesOf es ++ fileEntriesOf es)).length < cap
      · rw [if_pos hv]
        simp only []
        rw [ih _ _ hv, ← List.append_assoc]
      · rw [if_neg hv]
        simp only []
        have hle : cap ≤ (acc ++ collectNames ql relDir
            (dirEntriesOf es ++ fileEntriesOf es)).length := Nat.le_of_not_lt hv
        have h2 : ¬ ((acc ++ (collectNames ql relDir
            (dirEntriesOf es ++ fileEntriesOf es) ++ collectLoop ql fuel
              ((dirEntriesOf es).map (fun e => (relDir ++ "/" ++ e.name, e.children))
                ++ rest))).length < cap) := by
          simp only [List.length_append] at hle ⊢
          omega
        rw [if_neg h2, ← List.append_assoc, List.take_append_of_le_length hle]

/-- Work appended after the point where the cap fires is never looked at:
an early error is stable under extending the work list. -/
theorem searchLoop_error_append (ql : String) (cap : Nat) (fuel : Nat) :
    ∀ (wl extra : List (String × List Entry)) (acc r : List FsItem),
    searchLoop ql cap fuel wl acc = .error r →
    searchLoop ql cap fuel (wl ++ extra) acc = .error r := by
  induction fuel with
  | zero =>
    intro wl extra acc r h
    simp [searchLoop] at h
  | succ fuel ih =>
    intro wl extra acc r h
    cases wl with
    | nil => simp [searchLoop] at h
    | cons hd rest =>
      obtain ⟨relDir, es⟩ := hd
      have hstep : ∀ (tail : List (String × List Entry)),
          searchLoop ql cap (fuel + 1) ((relDir, es) :: tail) acc =
            match visitNames ql cap relDir (dirEntriesOf es ++ fileEntriesOf es) acc with
            | .error r => .error r
            | .ok acc2 =>
              searchLoop ql cap fuel
                ((dirEntriesOf es).map (fun e => (relDir ++ "/" ++ e.name, e.children))
                  ++ tail) acc2 := fun _ => rfl
      rw [List.cons_append, hstep (rest ++ extra)]
      rw [hstep rest] at h
      cases hv : visitNames ql cap relDir (dirEntriesOf es ++ fileEntriesOf es) acc with
      | error r2 =>
        rw [hv] at h
        exact h
      | ok acc2 =>
        rw [hv] at h
        show searchLoop ql cap fuel
            ((dirEntriesOf es).map (fun e => (relDir ++ "/" ++ e.name, e.children))
              ++ (rest ++ extra)) acc2 = .error r
        rw [← List.append_assoc]
        exact ih _ extra acc2 r h

/-- C7: the effective search limit is the request clamped to [1, 1000]; when
at least that many names match, search_files returns exactly the clamp many
results, and directories queued after the cap fires contribute nothing (the
walk has stopped). -/
theorem claim_C7_search_cap (q : String) (limit : Int) (fuel : Nat)
    (forest extra : List (String × List Entry))
    (hq : q ≠ "")
    (hmany : clampLimit limit ≤ (collectLoop (strLower q) fuel forest).length) :
    clampLimit limit = (max 1 (min limit 1000)).toNat
    ∧ (search_files q limit fuel forest).length = clampLimit limit
    ∧ search_files q limit fuel (forest ++ extra) = search_files q limit fuel forest := by
  have hpos : 1 ≤ clampLimit limit := by
    unfold clampLimit
    omega
  have hAcc : ([] : List FsItem).length < clampLimit limit := by simpa using hpos
  have hspec := searchLoop_spec (strLower q) (clampLimit limit) fuel forest [] hAcc
  have hlen : ¬ ((([] : List FsItem) ++ collectLoop (strLower q) fuel forest).length
      < clampLimit limit) := by
    simp only [List.nil_append]
    omega
  rw [if_neg hlen] at hspec
  refine ⟨rfl, ?_, ?_⟩
  · unfold search_files
    rw [if_neg hq, hspec]
    simp only [List.nil_append, List.length_take]
    omega
  · unfold search_files
    rw [if_neg hq, if_neg hq,
      searchLoop_error_append _ _ fuel forest extra [] _ hspec, hspec]

/-- C7 witness: fifty matching names, limit five: exactly five results, and
an extra matching root changes nothing. -/
theorem claim_C7_search_cap_witness :
    clampLimit 5 = (max 1 (min (5 : Int) 1000)).toNat
    ∧ (search_files "match" 5 60 bigForest).length = clampLimit 5
    ∧ search_files "match" 5 60 (bigForest ++ extraForest)
        = search_files "match" 5 60 bigForest :=
  claim_C7_search_cap "match" 5 60 bigForest extraForest (by decide) (by decide)

/-! ## C9 (corrected) -/

/-- C9 counterexample: the destination fails project-root containment, yet
promote answers 404 (staged file missing), not the claimed 400 — the
existence check on the staged source runs before the destination is ever
joined, so the stated iff is false. -/
theorem claim_C9_counterexample :
    promote_file [] mEx bodyC9 = .error (404, "staged file not found")
    ∧ safe_join mEx.projectRoot (promoteToRel mEx bodyC9) = none := by decide

/-- C9: the contract as the code has it.  Promote answers 400 exactly when
the staged path misses the write-dir prefix, the staged path escapes the
project root, or — only once the staged file is known to exist — the
destination escapes the project root; promote never answers 403; and with
all checks green it copies to any destination inside the project root,
read-only roots included. -/
theorem claim_C9_promote_error_contract (fs : FS) (m : Manifest) (body : PromoteBody) :
    (errCode (promote_file fs m body) = some 400 ↔
      strStartsWith (lstripSlash body.from_rel) (m.writeDirRel ++ "/") = false
      ∨ safe_join m.projectRoot (lstripSlash body.from_rel) = none
      ∨ (∃ s, safe_join m.projectRoot (lstripSlash body.from_rel) = some s
          ∧ (fsRead fs s).isSome = true
          ∧ safe_join m.projectRoot (promoteToRel m body) = none))
    ∧ errCode (promote_file fs m body) ≠ some 403
    ∧ (∀ src_abs dst_abs C,
        strStartsWith (lstripSlash body.from_rel) (m.writeDirRel ++ "/") = true →
        safe_join m.projectRoot (lstripSlash body.from_rel) = some src_abs →
        fsRead fs src_abs = some C →
        safe_join m.projectRoot (promoteToRel m body) = some dst_abs →
        body.overwrite = true →
        promote_file fs m body = .ok (fsWrite fs dst_abs C, promoteToRel m body)) := by
  cases hpre : strStartsWith (lstripSlash body.from_rel) (m.writeDirRel ++ "/") with
  | false =>
    have hp : promote_file fs m body
        = .error (400, "from_rel must start with " ++ m.writeDirRel ++ "/") := by
      unfold promote_file
      simp [hpre]
    refine ⟨?_, ?_, ?_⟩
    · rw [hp]
      simp [errCode]
    · rw [hp]
      simp [errCode]
    · intro src_abs dst_abs C h1
      exact absurd h1 (by decide)
  | true =>
    cases hsj : safe_join m.projectRoot (lstripSlash body.from_rel) with
    | none =>
      have hp : promote_file fs m body = .error (400, "invalid path") := by
        unfold promote_file
        simp [hpre, hsj]
      refine ⟨?_, ?_, ?_⟩
      · rw [hp]
        simp [errCode]
      · rw [hp]
        simp [errCode]
      · intro src_abs dst_abs C h1 h2
        cases h2
    | some s =>
      cases hrd : fsRead fs s with
      | none =>
        have hp : promote_file fs m body = .error (404, "staged file not found") := by
          unfold promote_file
          simp [hpre, hsj, hrd]
        refine ⟨?_, ?_, ?_⟩
        · rw [hp]
          simp [errCode, hpre, hsj, hrd]
        · rw [hp]
          simp [errCode]
        · intro src_abs dst_abs C h1 h2 h3
          injection h2 with he
          subst he
          rw [hrd] at h3
          cases h3
      | some C0 =>
        cases hsj2 : safe_join m.projectRoot (promoteToRel m body) with
        | none =>
          have hp : promote_file fs m body = .error (400, "invalid path") := by
            unfold promote_file
            simp [hpre, hsj, hrd, hsj2]
          refine ⟨?_, ?_, ?_⟩
          · rw [hp]
            simp [errCode, hpre, hsj, hrd, hsj2]
          · rw [hp]
            simp [errCode]
          · intro src_abs dst_abs C h1 h2 h3 h4
            cases h4
        | some d =>
          cases hov : body.overwrite with
          | false =>
            cases hex : fsRead fs d with
            | none =>
              have hp : promote_file fs m body
                  = .ok (fsWrite fs d C0, promoteToRel m body) := by
                unfold promote_file
                simp [hpre, hsj, hrd, hsj2, hov, hex]
              refine ⟨?_, ?_, ?_⟩
              · rw [hp]
                simp [errCode, hpre, hsj, hrd, hsj2]
              · rw [hp]
                simp [errCode]
              · intro src_abs dst_abs C h1 h2 h3 h4 h5
                exact absurd h5 (by decide)
            | some D =>
              have hp : promote_file fs m body = .error (409, "destination exists") := by
                unfold promote_file
                simp [hpre, hsj, hrd, hsj2, hov, hex]
              refine ⟨?_, ?_, ?_⟩
              · rw [hp]
                simp [errCode, hpre, hsj, hrd, hsj2]
              · rw [hp]
                simp [errCode]
              · intro src_abs dst_abs C h1 h2 h3 h4 h5
                exact absurd h5 (by decide)
          | true =>
            have hp : promote_file fs m body
                = .ok (fsWrite fs d C0, promoteToRel m body) := by
              unfold promote_file
              simp [hpre, hsj, hrd, hsj2, hov]
            refine ⟨?_, ?_, ?_⟩
            · rw [hp]
              simp [errCode, hpre, hsj, hrd, hsj2]
            · rw [hp]
              simp [errCode]
            · intro src_abs dst_abs C h1 h2 h3 h4 h5
              injection h2 with he
              subst he
              rw [hrd] at h3
              injection h3 with hc
              subst hc
              injection h4 with hd
              subst hd
              exact hp

/-- C9 witness: promote happily copies a staged file under the read-only
docs root — no Forbidden error exists on this route. -/
theorem claim_C9_promote_error_contract_witness :
    promote_file fsC9 mEx bodyW9
      = .ok (fsWrite fsC9 "/srv/proj/docs/evil.md" [104], promoteToRel mEx bodyW9) :=
  (claim_C9_promote_error_contract fsC9 mEx bodyW9).2.2
    "/srv/proj/output_pending/r.md" "/srv/proj/docs/evil.md" [104]
    (by decide) (by decide) rfl (by decide) rfl
